import Mathlib

/-!
# Verification of the resilient LLM interaction engine (`llm_runner.py`)

This file gives a shallow embedding of the automation logic of
`src/llm_runner.py` and proves (or refutes) the specification claims about
it.  Python strings are modelled as `List Char`; Python `None`-or-value
results are modelled as `Option`; the page/browser effects are modelled by
explicit oracles (functions from selectors to matched-element texts, or
from an execution mode to an attempt outcome).
-/

namespace LLMRunner

/-- Model of Python's whitespace notion: the characters matched by the
regex `\s` and stripped by `str.strip()` (these coincide: ASCII whitespace
`\t\n\v\f\r`, space, the separator controls `\x1c`–`\x1f`, `\x85`, and the
Unicode space code points). -/
def isPySpace (c : Char) : Bool :=
  let n := c.toNat
  (decide (9 ≤ n) && decide (n ≤ 13)) || n == 32 ||
  (decide (28 ≤ n) && decide (n ≤ 31)) || n == 0x85 || n == 0xA0 ||
  n == 0x1680 || (decide (0x2000 ≤ n) && decide (n ≤ 0x200A)) ||
  n == 0x2028 || n == 0x2029 || n == 0x202F || n == 0x205F || n == 0x3000

/-- Model of Python's `str.isalnum()` for single characters, restricted to
code points below `0x100` (ASCII alphanumerics and the Latin-1 letters and
numeric signs); code points at or above `0x100` are conservatively
classified as non-alphanumeric.  All characters considered by the claims
lie below `0x100`, where this is exact. -/
def pyIsAlnum (c : Char) : Bool :=
  let n := c.toNat
  (decide (0x30 ≤ n) && decide (n ≤ 0x39)) ||
  (decide (0x41 ≤ n) && decide (n ≤ 0x5A)) ||
  (decide (0x61 ≤ n) && decide (n ≤ 0x7A)) ||
  n == 0xAA || n == 0xB2 || n == 0xB3 || n == 0xB5 || n == 0xB9 ||
  n == 0xBA || n == 0xBC || n == 0xBD || n == 0xBE ||
  (decide (0xC0 ≤ n) && decide (n ≤ 0xD6)) ||
  (decide (0xD8 ≤ n) && decide (n ≤ 0xF6)) ||
  (decide (0xF8 ≤ n) && decide (n ≤ 0xFF))

/-- `sanitize_name` (llm_runner.py line 21–22):
`"".join(c if c.isalnum() or c in "-_" else "_" for c in name)`. -/
def sanitize_name (name : List Char) : List Char :=
  name.map fun c => if pyIsAlnum c || c == '-' || c == '_' then c else '_'

/-- A code point in the astral planes, i.e. matched by the regex class
`[\U00010000-\U0010ffff]` (every `Char` is at most `0x10FFFF`). -/
def isAstral (c : Char) : Bool := decide (0x10000 ≤ c.toNat)

/-- An ASCII code point, i.e. NOT matched by the regex class `[^\x00-\x7F]`. -/
def isAsciiCp (c : Char) : Bool := decide (c.toNat ≤ 0x7F)

/-- Recursion for `re.sub(r'\s+', ' ', text)`: the flag records whether we
are inside a whitespace run whose first character was already replaced. -/
def subWSAux : Bool → List Char → List Char
  | _, [] => []
  | inRun, c :: cs =>
    if isPySpace c then
      if inRun then subWSAux true cs else ' ' :: subWSAux true cs
    else c :: subWSAux false cs

/-- `re.sub(r'\s+', ' ', text)`: each maximal whitespace run becomes one space. -/
def subWS (l : List Char) : List Char := subWSAux false l

/-- `str.strip()`: drop whitespace from both ends. -/
def stripWS (l : List Char) : List Char :=
  ((l.dropWhile isPySpace).reverse.dropWhile isPySpace).reverse

/-- `clean_text` (llm_runner.py lines 24–29): remove astral code points,
remove remaining non-ASCII code points (substituting a run by the empty
string is the same as deleting each character), collapse whitespace runs
to single spaces, and strip the ends. -/
def clean_text (text : List Char) : List Char :=
  stripWS (subWS ((text.filter fun c => !isAstral c).filter isAsciiCp))

/-- The response check of `send_prompt` (llm_runner.py lines 151–159):
`text = raw.strip()`; `if text and len(text) > 1: return clean_text(text)`
`else: return None`. -/
def extract_result (raw : List Char) : Option (List Char) :=
  let text := stripWS raw
  if text ≠ [] ∧ 1 < text.length then some (clean_text text) else none

/-- Python truthiness of an optional string: `if response:` holds exactly
for a present, non-empty string. -/
def truthy : Option (List Char) → Bool
  | some (_ :: _) => true
  | _ => false

/-! ## The element locator (`frames_in_read_order`, `find_input`) -/

/-- A frame (document) of the live page, as the locator observes it: which
probes become visible within their timeout.  `roleTextboxVisible` models
`fr.get_by_role("textbox").first` becoming visible, `selVisible sel`
models `fr.locator(sel).first` becoming visible. -/
structure FrameModel where
  roleTextboxVisible : Bool
  selVisible : String → Bool

/-- A page: its frame list (`page.frames`, which contains the main frame)
together with the index of `page.main_frame` in that list. -/
structure PageModel where
  frames : List FrameModel
  mainIdx : Nat

/-- `frames_in_read_order` (llm_runner.py lines 31–36): the main frame
first, then every frame that is not (identically) the main frame, in
`page.frames` order.  Frames are identified by their index. -/
def frames_in_read_order (p : PageModel) : List Nat :=
  p.mainIdx :: (List.range p.frames.length).filter fun i => i ≠ p.mainIdx

/-- The hard-coded `candidates` list of `find_input` (lines 44–50). -/
def candidates : List String :=
  ["textarea", "div[contenteditable='true']", "input[type='text']",
   "[aria-label*='message' i]", "#prompt-textarea"]

/-- Which probe of `find_input` produced the returned locator. -/
inductive Hit where
  | role : Hit
  | sel : String → Hit
deriving DecidableEq

/-- The per-frame body of `find_input`'s loop (lines 52–66): first the
`get_by_role("textbox")` probe, then the hard-coded candidate selectors in
list order; each failed probe's exception is swallowed. -/
def frameHit (fr : FrameModel) : Option Hit :=
  if fr.roleTextboxVisible then some Hit.role
  else candidates.findSome? fun s => if fr.selVisible s then some (Hit.sel s) else none

/-- Frame lookup by index (out-of-range indices behave as a frame in which
nothing ever becomes visible). -/
def frameAt (p : PageModel) (i : Nat) : FrameModel :=
  (p.frames.get? i).getD ⟨false, fun _ => false⟩

/-- `find_input` (llm_runner.py lines 42–68).  The `input_selector`
argument is accepted (as in the source signature) and plays no role in the
body; `none` models the terminal `RuntimeError("Input field not found")`. -/
def find_input (p : PageModel) (input_selector : Option String) : Option (Nat × Hit) :=
  (frames_in_read_order p).findSome? fun i =>
    (frameHit (frameAt p i)).map fun h => (i, h)

/-! ## The response extraction phase of `send_prompt` -/

/-- The fields of a provider profile dict used by the extraction phase
(`llm.get("wait_time", 10000)`, `llm.get("response_selector", ".markdown")`).
A `none` field models an absent key. -/
structure LLMCfg where
  wait_time : Option Nat
  response_selector : Option String

/-- `llm.get("wait_time", 10000)` (line 146). -/
def waitTime (llm : LLMCfg) : Nat := llm.wait_time.getD 10000

/-- `llm.get("response_selector", ".markdown")` (line 149). -/
def responseSel (llm : LLMCfg) : String := llm.response_selector.getD ".markdown"

/-- Observable trace of the extraction phase: how long it suspended and
which element text it read (`none` when the selector matched nothing). -/
structure ExtractTrace where
  waited : Nat
  read : Option (List Char)

/-- The extraction phase of `send_prompt` (lines 145–151): one fixed
`wait_for_timeout(wait_time)`, then `page.locator(response_sel).last` and
`inner_text()`.  `pageText sel` gives the texts of the elements matching
`sel`, in document order. -/
def extract_phase (llm : LLMCfg) (pageText : String → List (List Char)) : ExtractTrace :=
  { waited := waitTime llm
    read := (pageText (responseSel llm)).getLast? }

/-- The full response handling of `send_prompt` after submission (lines
145–163): extraction phase, then the strip/length check of
`extract_result`; a missing element (read `none`) raises and is caught by
the enclosing handler, yielding `None`. -/
def send_prompt_result (llm : LLMCfg) (pageText : String → List (List Char)) :
    Option (List Char) :=
  match (extract_phase llm pageText).read with
  | some raw => extract_result raw
  | none => none

/-! ## The fallback controller (`cmd_test`) and batch loop (`cmd_batch`) -/

/-- Browser execution mode: `chromium.launch(headless=True/False)`. -/
inductive Mode where
  | headless : Mode
  | headful : Mode
deriving DecidableEq

/-- Outcome of one full interaction attempt (navigate, locate, submit,
extract) in one mode: a truthy response, a falsy response (`None` or `""`
from `send_prompt`), or an exception escaping `page.goto`. -/
inductive AttemptOutcome where
  | ok : List Char → AttemptOutcome
  | empty : AttemptOutcome
  | exc : AttemptOutcome
deriving DecidableEq

/-- Whether an attempt produced a truthy response. -/
def isOk : AttemptOutcome → Bool
  | AttemptOutcome.ok _ => true
  | _ => false

/-- Result of `cmd_test`: `some true` = returned `True`, `some false` =
returned `False`, `none` = an exception propagated out; plus the modes
attempted, in order. -/
structure TestRun where
  ok : Option Bool
  attempted : List Mode

/-- `cmd_test` (llm_runner.py lines 192–264), given the outcome of the
full interaction in each mode: the headless attempt runs first; a truthy
response returns `True`; a falsy response or a caught exception falls
through to a headful attempt; the headful attempt's falsy response returns
`False`, and a headful exception propagates (its `try` has no `except`).
The browser-launch lines themselves are not modelled. -/
def cmd_test (attempt : Mode → AttemptOutcome) : TestRun :=
  match attempt Mode.headless with
  | AttemptOutcome.ok _ => { ok := some true, attempted := [Mode.headless] }
  | _ =>
    match attempt Mode.headful with
    | AttemptOutcome.ok _ => { ok := some true, attempted := [Mode.headless, Mode.headful] }
    | AttemptOutcome.empty => { ok := some false, attempted := [Mode.headless, Mode.headful] }
    | AttemptOutcome.exc => { ok := none, attempted := [Mode.headless, Mode.headful] }

/-- Observable state of a batch run: the attempts made (mode, honeypot
name, prompt) in submission order, the records persisted via
`save_response` in persistence order, and the two counters. -/
structure BatchState where
  attempts : List (Mode × String × List Char)
  records : List (String × List Char × List Char)
  success : Nat
  failed : Nat
deriving DecidableEq

/-- The record persisted by one iteration of `cmd_batch`'s inner loop, if
any: `save_response` runs exactly when `if response:` is truthy. -/
def step_record (oracle : String → List Char → Option (List Char))
    (hp : String) (p : List Char) : Option (String × List Char × List Char) :=
  match oracle hp p with
  | some (c :: cs) => some (hp, p, c :: cs)
  | _ => none

/-- One iteration of `cmd_batch`'s inner prompt loop (lines 323–333):
`send_prompt` on the single headless page (modelled by `oracle`), then
either `save_response` + `success_count += 1` or `failed_count += 1`. -/
def batch_step (oracle : String → List Char → Option (List Char))
    (hp : String) (p : List Char) (st : BatchState) : BatchState :=
  match oracle hp p with
  | some (c :: cs) =>
    { st with
      attempts := st.attempts ++ [(Mode.headless, hp, p)]
      records := st.records ++ [(hp, p, c :: cs)]
      success := st.success + 1 }
  | _ =>
    { st with
      attempts := st.attempts ++ [(Mode.headless, hp, p)]
      failed := st.failed + 1 }

/-- The inner prompt loop of `cmd_batch` over one honeypot (lines 323–338). -/
def batch_honeypot (oracle : String → List Char → Option (List Char))
    (hp : String) (ps : List (List Char)) (st : BatchState) : BatchState :=
  ps.foldl (fun st p => batch_step oracle hp p st) st

/-- The honeypot loop of `cmd_batch` (lines 309–343): both counters start
at zero; all prompts run against the one page opened with
`launch_persistent(profile_dir, headless=True)`. -/
def cmd_batch (oracle : String → List Char → Option (List Char))
    (honeypots : List (String × List (List Char))) : BatchState :=
  honeypots.foldl (fun st h => batch_honeypot oracle h.1 h.2 st)
    { attempts := [], records := [], success := 0, failed := 0 }

/-- `total_prompts` (line 302): `sum(len(prompts) for _, prompts in honeypots)`. -/
def total_prompts (honeypots : List (String × List (List Char))) : Nat :=
  (honeypots.map fun h => h.2.length).sum

/-! ## The prompt-source shape dispatch of `cmd_batch` -/

/-- JSON/YAML values as loaded by `json.load` / `yaml.safe_load`. -/
inductive J where
  | str : String → J
  | num : Int → J
  | arr : List J → J
  | obj : List (String × J) → J

/-- Key lookup in a dict (first binding wins; Python dicts have unique keys). -/
def jLookup : List (String × J) → String → Option J
  | [], _ => none
  | (k, v) :: kvs, key => if k == key then some v else jLookup kvs key

/-- Python `h.get(key, dflt)`: `none` when `h` is not a dict (the program
would raise `AttributeError` there). -/
def jGet : J → String → J → Option J
  | J.obj kvs, key, dflt => some ((jLookup kvs key).getD dflt)
  | _, _, _ => none

/-- Whether a value is a list (`isinstance(v, list)`). -/
def isArr : J → Bool
  | J.arr _ => true
  | _ => false

/-- Whether a value equals the string `"honeypots"` (list membership test
`"honeypots" in data` when `data` is a list). -/
def isStrHp : J → Bool
  | J.str s => s == "honeypots"
  | _ => false

/-- One honeypot item of the named or list shapes (lines 288–289, 295–296):
`(h.get("name", f"honeypot_{i}"), h.get("prompts", []))`. -/
def parseItem (i : Nat) (h : J) : Option (J × J) := do
  let n ← jGet h "name" (J.str ("honeypot_" ++ toString i))
  let ps ← jGet h "prompts" (J.arr [])
  pure (n, ps)

/-- The honeypot-item comprehension with `enumerate(·, 1)`. -/
def parseItems : Nat → List J → Option (List (J × J))
  | _, [] => some []
  | i, h :: hs => do
    let x ← parseItem i h
    let xs ← parseItems (i + 1) hs
    pure (x :: xs)

/-- The prompt-source shape dispatch of `cmd_batch` (lines 286–299):
`if "honeypots" in data` (key test on a dict, membership test — comparison
against the string — on a list), `elif` dict with all-list values taken as
`data.items()`, `elif` plain list.  `none` models both the "Unrecognized
JSON format" early return and a Python exception during parsing (indexing
a list with a string, or `.get` on a non-dict item). -/
def parseHoneypots : J → Option (List (J × J))
  | J.obj kvs =>
    match jLookup kvs "honeypots" with
    | some (J.arr hs) => parseItems 1 hs
    | some _ => none
    | none =>
      if kvs.all (fun kv => isArr kv.2) then
        some (kvs.map fun kv => (J.str kv.1, kv.2))
      else none
  | J.arr hs => if hs.any isStrHp then none else parseItems 1 hs
  | _ => none

/-- A persona set: ordered persona names with their ordered prompt lists. -/
abbrev PersonaSet := List (String × List String)

/-- One honeypot as an explicit `{"name": ..., "prompts": [...]}` object. -/
def itemObj (h : String × List String) : J :=
  J.obj [("name", J.str h.1), ("prompts", J.arr (h.2.map J.str))]

/-- The mapping encoding `{persona: [prompts...], ...}` of a persona set. -/
def encMapping (P : PersonaSet) : J :=
  J.obj (P.map fun h => (h.1, J.arr (h.2.map J.str)))

/-- The named encoding `{"honeypots": [{"name": ..., "prompts": ...}]}`. -/
def encNamed (P : PersonaSet) : J :=
  J.obj [("honeypots", J.arr (P.map itemObj))]

/-- The list-of-objects encoding `[{"name": ..., "prompts": ...}, ...]`. -/
def encList (P : PersonaSet) : J := J.arr (P.map itemObj)

/-- The canonical (persona name, prompt list) sequence of a persona set,
as the J-pairs the dispatch produces. -/
def canonical (P : PersonaSet) : List (J × J) :=
  P.map fun h => (J.str h.1, J.arr (h.2.map J.str))

/-! ## Properties of the text normalizer -/

/-- Every whitespace run is already a single space: each whitespace
character is `' '` and is not followed by another whitespace character. -/
def wsCollapsed : List Char → Bool
  | [] => true
  | c :: cs =>
    (!(isPySpace c) ||
      (c == ' ' && (match cs.head? with
        | some d => !(isPySpace d)
        | none => true))) && wsCollapsed cs

/-- Neither end of the list is whitespace. -/
def wsTrimmed (l : List Char) : Bool :=
  (match l.head? with | some c => !(isPySpace c) | none => true) &&
  (match l.getLast? with | some c => !(isPySpace c) | none => true)

theorem mem_subWSAux {c : Char} :
    ∀ {b : Bool} {l : List Char}, c ∈ subWSAux b l → c = ' ' ∨ c ∈ l := by
  intro b l
  induction l generalizing b with
  | nil => intro h; simp [subWSAux] at h
  | cons d ds ih =>
    intro h
    cases hd : isPySpace d with
    | true =>
      cases b with
      | true =>
        simp only [subWSAux, hd, if_true] at h
        rcases ih h with h' | h'
        · exact Or.inl h'
        · exact Or.inr (List.mem_cons_of_mem _ h')
      | false =>
        simp only [subWSAux, hd, if_true] at h
        rcases List.mem_cons.mp h with h' | h'
        · exact Or.inl h'
        · rcases ih h' with h'' | h''
          · exact Or.inl h''
          · exact Or.inr (List.mem_cons_of_mem _ h'')
    | false =>
      simp only [subWSAux, hd, Bool.false_eq_true, if_false] at h
      rcases List.mem_cons.mp h with h' | h'
      · exact Or.inr (h' ▸ List.mem_cons_self _ _)
      · rcases ih h' with h'' | h''
        · exact Or.inl h''
        · exact Or.inr (List.mem_cons_of_mem _ h'')

theorem head_subWSAux_true :
    ∀ {l : List Char} {c : Char}, (subWSAux true l).head? = some c → isPySpace c = false := by
  intro l
  induction l with
  | nil => intro c h; simp [subWSAux] at h
  | cons d ds ih =>
    intro c h
    cases hd : isPySpace d with
    | true =>
      simp only [subWSAux, hd, if_true] at h
      exact ih h
    | false =>
      simp only [subWSAux, hd, Bool.false_eq_true, if_false, List.head?_cons,
        Option.some.injEq] at h
      exact h ▸ hd

theorem wsCollapsed_subWSAux : ∀ (l : List Char) (b : Bool), wsCollapsed (subWSAux b l) = true := by
  intro l
  induction l with
  | nil => intro b; rfl
  | cons d ds ih =>
    intro b
    cases hd : isPySpace d with
    | true =>
      cases b with
      | true =>
        simp only [subWSAux, hd, if_true]
        exact ih true
      | false =>
        simp only [subWSAux, hd, if_true, wsCollapsed, Bool.and_eq_true]
        refine ⟨?_, ih true⟩
        cases hh : (subWSAux true ds).head? with
        | none => simp
        | some e =>
          have := head_subWSAux_true hh
          simp [this]
    | false =>
      simp only [subWSAux, hd, Bool.false_eq_true, if_false, wsCollapsed, Bool.and_eq_true]
      exact ⟨by simp [hd], ih false⟩

theorem subWSAux_eq_self :
    ∀ (l : List Char), wsCollapsed l = true →
      subWSAux false l = l ∧
        ((l.head?.all fun c => !(isPySpace c)) = true → subWSAux true l = l) := by
  intro l
  induction l with
  | nil => intro _; exact ⟨rfl, fun _ => rfl⟩
  | cons d ds ih =>
    intro h
    simp only [wsCollapsed, Bool.and_eq_true] at h
    obtain ⟨h1, h2⟩ := h
    obtain ⟨ihf, iht⟩ := ih h2
    cases hd : isPySpace d with
    | true =>
      rw [hd] at h1
      simp only [Bool.not_true, Bool.false_or, Bool.and_eq_true, beq_iff_eq] at h1
      obtain ⟨hsp, hnext⟩ := h1
      have hds : subWSAux true ds = ds := by
        apply iht
        cases hh : ds.head? with
        | none => simp [hh]
        | some e =>
          rw [hh] at hnext
          have he : isPySpace e = false := by simpa using hnext
          simp [hh, he]
      constructor
      · subst hsp
        rw [show subWSAux false (' ' :: ds) = ' ' :: subWSAux true ds from rfl, hds]
      · intro hhead
        simp only [List.head?_cons, Option.all_some, hd, Bool.not_true] at hhead
        cases hhead
    | false =>
      constructor
      · simp only [subWSAux, hd, Bool.false_eq_true, if_false, ihf]
      · intro _
        simp only [subWSAux, hd, Bool.false_eq_true, if_false, ihf]

theorem wsCollapsed_append_right :
    ∀ {t m : List Char}, wsCollapsed (t ++ m) = true → wsCollapsed m = true := by
  intro t
  induction t with
  | nil => intro m h; exact h
  | cons a t' ih =>
    intro m h
    simp only [List.cons_append, wsCollapsed, Bool.and_eq_true] at h
    exact ih h.2

theorem wsCollapsed_append_left :
    ∀ {m t : List Char}, wsCollapsed (m ++ t) = true → wsCollapsed m = true := by
  intro m
  induction m with
  | nil => intro t _; rfl
  | cons c cs ih =>
    intro t h
    simp only [List.cons_append, wsCollapsed, Bool.and_eq_true] at h
    obtain ⟨h1, h2⟩ := h
    simp only [wsCollapsed, Bool.and_eq_true]
    refine ⟨?_, ih h2⟩
    cases hcs : cs with
    | nil =>
      simp only [List.head?_nil]
      cases hsp : isPySpace c with
      | false => simp
      | true =>
        simp only [hsp, Bool.not_true, Bool.false_or, Bool.and_eq_true] at h1
        simp [hsp, h1.1]
    | cons e es =>
      rw [hcs] at h1
      simpa using h1

theorem wsCollapsed_stripWS {l : List Char} (h : wsCollapsed l = true) :
    wsCollapsed (stripWS l) = true := by
  have hsuf : l.dropWhile isPySpace <:+ l := List.dropWhile_suffix isPySpace
  obtain ⟨t, ht⟩ := hsuf
  have hdrop : wsCollapsed (l.dropWhile isPySpace) = true :=
    wsCollapsed_append_right (ht ▸ h)
  have hstr : stripWS l = (l.dropWhile isPySpace).rdropWhile isPySpace := rfl
  have hpre : (l.dropWhile isPySpace).rdropWhile isPySpace <+: l.dropWhile isPySpace :=
    List.rdropWhile_prefix isPySpace _
  obtain ⟨t', ht'⟩ := hpre
  rw [hstr]
  exact wsCollapsed_append_left (ht' ▸ hdrop)

theorem head?_dropWhile_ws :
    ∀ {p : Char → Bool} {l : List Char} {c : Char},
      (l.dropWhile p).head? = some c → p c = false := by
  intro p l
  induction l with
  | nil => intro c h; simp [List.dropWhile] at h
  | cons d ds ih =>
    intro c h
    cases hd : p d with
    | true =>
      rw [List.dropWhile_cons_of_pos hd] at h
      exact ih h
    | false =>
      rw [List.dropWhile_cons_of_neg (by simp [hd])] at h
      simp only [List.head?_cons, Option.some.injEq] at h
      exact h ▸ hd

theorem wsTrimmed_stripWS (l : List Char) : wsTrimmed (stripWS l) = true := by
  simp only [wsTrimmed, Bool.and_eq_true]
  constructor
  · cases hh : (stripWS l).head? with
    | none => simp
    | some c =>
      have hstr : stripWS l = (l.dropWhile isPySpace).rdropWhile isPySpace := rfl
      have hpre : (l.dropWhile isPySpace).rdropWhile isPySpace <+: l.dropWhile isPySpace :=
        List.rdropWhile_prefix isPySpace _
      obtain ⟨t, ht⟩ := hpre
      have hw : (l.dropWhile isPySpace).head? = some c := by
        rw [← ht, List.head?_append, ← hstr, hh]
        rfl
      have := head?_dropWhile_ws hw
      simp [this]
  · cases hh : (stripWS l).getLast? with
    | none => simp
    | some c =>
      have hstr : stripWS l = ((l.dropWhile isPySpace).reverse.dropWhile isPySpace).reverse :=
        rfl
      rw [hstr, List.getLast?_reverse] at hh
      have := head?_dropWhile_ws hh
      simp [this]

theorem stripWS_eq_self {l : List Char} (h : wsTrimmed l = true) : stripWS l = l := by
  simp only [wsTrimmed, Bool.and_eq_true] at h
  obtain ⟨h1, h2⟩ := h
  have hdrop : l.dropWhile isPySpace = l := by
    cases l with
    | nil => rfl
    | cons c cs =>
      simp only [List.head?_cons] at h1
      exact List.dropWhile_cons_of_neg (by simpa using h1)
  have hstr : stripWS l = l.rdropWhile isPySpace := by
    show (l.dropWhile isPySpace).rdropWhile isPySpace = l.rdropWhile isPySpace
    rw [hdrop]
  rw [hstr]
  apply List.rdropWhile_eq_self_iff.mpr
  intro hl
  rw [List.getLast?_eq_getLast l hl] at h2
  simpa using h2

theorem mem_stripWS {c : Char} {l : List Char} (h : c ∈ stripWS l) : c ∈ l := by
  have hpre : stripWS l <+: l.dropWhile isPySpace := List.rdropWhile_prefix isPySpace _
  have hsuf : l.dropWhile isPySpace <:+ l := List.dropWhile_suffix isPySpace
  exact hsuf.subset (hpre.subset h)

theorem mem_clean_text {c : Char} {s : List Char} (h : c ∈ clean_text s) :
    c = ' ' ∨ (isAstral c = false ∧ isAsciiCp c = true) := by
  have h1 : c ∈ subWS ((s.filter fun c => !isAstral c).filter isAsciiCp) := mem_stripWS h
  rcases mem_subWSAux h1 with h' | h'
  · exact Or.inl h'
  · right
    have h2 := List.mem_filter.mp h'
    have h3 := List.mem_filter.mp h2.1
    refine ⟨?_, h2.2⟩
    simpa using h3.2

theorem clean_text_ascii (s : List Char) : (clean_text s).all isAsciiCp = true := by
  rw [List.all_eq_true]
  intro c hc
  rcases mem_clean_text hc with h | h
  · subst h; rfl
  · exact h.2

theorem clean_text_collapsed (s : List Char) : wsCollapsed (clean_text s) = true :=
  wsCollapsed_stripWS (wsCollapsed_subWSAux _ false)

theorem clean_text_trimmed (s : List Char) : wsTrimmed (clean_text s) = true :=
  wsTrimmed_stripWS _

theorem clean_text_idem (s : List Char) : clean_text (clean_text s) = clean_text s := by
  have ha : (clean_text s).filter (fun c => !isAstral c) = clean_text s := by
    apply List.filter_eq_self.mpr
    intro c hc
    rcases mem_clean_text hc with h | h
    · subst h; rfl
    · simp [h.1]
  have hb : (clean_text s).filter isAsciiCp = clean_text s := by
    apply List.filter_eq_self.mpr
    intro c hc
    rcases mem_clean_text hc with h | h
    · subst h; rfl
    · exact h.2
  have hcc : subWS (clean_text s) = clean_text s :=
    (subWSAux_eq_self _ (clean_text_collapsed s)).1
  show stripWS (subWS (((clean_text s).filter fun c => !isAstral c).filter isAsciiCp)) =
    clean_text s
  rw [ha, hb, hcc, stripWS_eq_self (clean_text_trimmed s)]

/-! ## Properties of the batch loop -/

/-- The attempt list of a batch, in submission order: honeypots in prompt-
source order, prompts in list order, every attempt on the headless page. -/
def batch_attempt_list (honeypots : List (String × List (List Char))) :
    List (Mode × String × List Char) :=
  honeypots.flatMap fun h => h.2.map fun p => (Mode.headless, h.1, p)

theorem batch_step_eq (oracle : String → List Char → Option (List Char))
    (hp : String) (p : List Char) (st : BatchState) :
    batch_step oracle hp p st =
      { attempts := st.attempts ++ [(Mode.headless, hp, p)]
        records := st.records ++ (step_record oracle hp p).toList
        success := st.success + (if (step_record oracle hp p).isSome then 1 else 0)
        failed := st.failed + (if (step_record oracle hp p).isSome then 0 else 1) } := by
  unfold batch_step step_record
  cases h : oracle hp p with
  | none => simp
  | some r =>
    cases r with
    | nil => simp
    | cons c cs => simp

theorem batch_honeypot_eq (oracle : String → List Char → Option (List Char)) (hp : String) :
    ∀ (ps : List (List Char)) (st : BatchState),
      batch_honeypot oracle hp ps st =
        { attempts := st.attempts ++ ps.map fun p => (Mode.headless, hp, p)
          records := st.records ++ ps.filterMap (step_record oracle hp)
          success := st.success + ps.countP fun p => (step_record oracle hp p).isSome
          failed := st.failed + ps.countP fun p => !(step_record oracle hp p).isSome } := by
  intro ps
  induction ps with
  | nil => intro st; simp [batch_honeypot]
  | cons p ps ih =>
    intro st
    have hfold : batch_honeypot oracle hp (p :: ps) st =
        batch_honeypot oracle hp ps (batch_step oracle hp p st) := rfl
    rw [hfold, ih, batch_step_eq]
    cases h : (step_record oracle hp p).isSome with
    | true =>
      obtain ⟨r, hr⟩ := Option.isSome_iff_exists.mp h
      simp [List.filterMap_cons, List.countP_cons, hr, Nat.add_assoc, Nat.add_comm 1]
    | false =>
      have hr : step_record oracle hp p = none := Option.not_isSome_iff_eq_none.mp (by simp [h])
      simp [List.filterMap_cons, List.countP_cons, hr, Nat.add_assoc, Nat.add_comm 1]

theorem cmd_batch_eq (oracle : String → List Char → Option (List Char)) :
    ∀ (hps : List (String × List (List Char))),
      cmd_batch oracle hps =
        { attempts := batch_attempt_list hps
          records := (batch_attempt_list hps).filterMap fun a => step_record oracle a.2.1 a.2.2
          success := (batch_attempt_list hps).countP fun a => (step_record oracle a.2.1 a.2.2).isSome
          failed := (batch_attempt_list hps).countP
            fun a => !(step_record oracle a.2.1 a.2.2).isSome } := by
  have main : ∀ (hps : List (String × List (List Char))) (st : BatchState),
      hps.foldl (fun st h => batch_honeypot oracle h.1 h.2 st) st =
        { attempts := st.attempts ++ batch_attempt_list hps
          records := st.records ++
            (batch_attempt_list hps).filterMap fun a => step_record oracle a.2.1 a.2.2
          success := st.success +
            ((batch_attempt_list hps).countP fun a => (step_record oracle a.2.1 a.2.2).isSome)
          failed := st.failed +
            ((batch_attempt_list hps).countP
              fun a => !(step_record oracle a.2.1 a.2.2).isSome) } := by
    intro hps
    induction hps with
    | nil => intro st; simp [batch_attempt_list]
    | cons h t ih =>
      intro st
      have hfold : (h :: t).foldl (fun st h => batch_honeypot oracle h.1 h.2 st) st =
          t.foldl (fun st h => batch_honeypot oracle h.1 h.2 st)
            (batch_honeypot oracle h.1 h.2 st) := rfl
      rw [hfold, ih, batch_honeypot_eq]
      have hmap : ∀ {α : Type} (g : (Mode × String × List Char) → α),
          ((h.2.map fun p => (Mode.headless, h.1, p)).map g) = h.2.map fun p => g (Mode.headless, h.1, p) := by
        intro α g
        rw [List.map_map]
        rfl
      simp only [batch_attempt_list, List.flatMap_cons, List.filterMap_append,
        List.countP_append, List.filterMap_map, List.countP_map, List.append_assoc,
        Nat.add_assoc]
      rfl
  intro hps
  have := main hps { attempts := [], records := [], success := 0, failed := 0 }
  simpa [cmd_batch] using this

theorem countP_add_countP_not_ws {α : Type} (p : α → Bool) (l : List α) :
    l.countP p + l.countP (fun a => !p a) = l.length := by
  induction l with
  | nil => rfl
  | cons a t ih =>
    by_cases h : p a = true
    · simp [List.countP_cons, h, ← ih]; omega
    · simp [List.countP_cons, h, ← ih]; omega

theorem length_filterMap_eq_countP {α β : Type} (f : α → Option β) (l : List α) :
    (l.filterMap f).length = l.countP fun a => (f a).isSome := by
  induction l with
  | nil => rfl
  | cons a t ih =>
    cases h : f a with
    | none => simp [List.filterMap_cons, h, List.countP_cons, ih]
    | some b => simp [List.filterMap_cons, h, List.countP_cons, ih]

theorem batch_attempt_list_length (hps : List (String × List (List Char))) :
    (batch_attempt_list hps).length = total_prompts hps := by
  rw [batch_attempt_list, List.length_flatMap, total_prompts]
  congr 1
  simp only [Function.comp_def, List.length_map]

/-! ## Properties of the prompt-source dispatch -/

theorem parseItem_itemObj (i : Nat) (h : String × List String) :
    parseItem i (itemObj h) = some (J.str h.1, J.arr (h.2.map J.str)) := rfl

theorem parseItems_map_itemObj :
    ∀ (P : PersonaSet) (i : Nat), parseItems i (P.map itemObj) = some (canonical P) := by
  intro P
  induction P with
  | nil => intro i; rfl
  | cons h t ih =>
    intro i
    show (do
        let x ← parseItem i (itemObj h)
        let xs ← parseItems (i + 1) (t.map itemObj)
        pure (x :: xs)) = some (canonical (h :: t))
    rw [parseItem_itemObj, ih (i + 1)]
    rfl

theorem parse_encNamed (P : PersonaSet) :
    parseHoneypots (encNamed P) = some (canonical P) :=
  parseItems_map_itemObj P 1

theorem parse_encList (P : PersonaSet) :
    parseHoneypots (encList P) = some (canonical P) := by
  have hno : (P.map itemObj).any isStrHp = false := by
    rw [List.any_eq_false]
    intro x hx
    obtain ⟨h, _, rfl⟩ := List.mem_map.mp hx
    intro hcontra
    simp [itemObj, isStrHp] at hcontra
  show (if (P.map itemObj).any isStrHp then none else parseItems 1 (P.map itemObj)) =
    some (canonical P)
  rw [hno]
  simpa using parseItems_map_itemObj P 1

theorem jLookup_encMapping_none (P : PersonaSet) (hno : ∀ h ∈ P, h.1 ≠ "honeypots") :
    jLookup (P.map fun h => (h.1, J.arr (h.2.map J.str))) "honeypots" = none := by
  induction P with
  | nil => rfl
  | cons h t ih =>
    simp only [List.map_cons, jLookup]
    have hne : (h.1 == "honeypots") = false := by
      have := hno h (List.mem_cons_self _ _)
      simpa using this
    rw [hne]
    simp only [Bool.false_eq_true, if_false]
    exact ih fun x hx => hno x (List.mem_cons_of_mem _ hx)

theorem parse_encMapping (P : PersonaSet) (hno : ∀ h ∈ P, h.1 ≠ "honeypots") :
    parseHoneypots (encMapping P) = some (canonical P) := by
  show (match jLookup (P.map fun h => (h.1, J.arr (h.2.map J.str))) "honeypots" with
    | some (J.arr hs) => parseItems 1 hs
    | some _ => none
    | none =>
      if (P.map fun h => (h.1, J.arr (h.2.map J.str))).all (fun kv => isArr kv.2) then
        some ((P.map fun h => (h.1, J.arr (h.2.map J.str))).map fun kv => (J.str kv.1, kv.2))
      else none) = some (canonical P)
  rw [jLookup_encMapping_none P hno]
  have hall : (P.map fun h => (h.1, J.arr (h.2.map J.str))).all (fun kv => isArr kv.2) = true := by
    rw [List.all_eq_true]
    intro x hx
    obtain ⟨h, _, rfl⟩ := List.mem_map.mp hx
    rfl
  rw [hall]
  simp only [if_true, Option.some.injEq, List.map_map, canonical]
  rfl

theorem cmd_test_attempted_of_not_ok {attempt : Mode → AttemptOutcome}
    (h : isOk (attempt Mode.headless) = false) :
    (cmd_test attempt).attempted = [Mode.headless, Mode.headful] := by
  cases hl : attempt Mode.headless with
  | ok r => rw [hl] at h; simp [isOk] at h
  | empty => cases hf : attempt Mode.headful <;> simp [cmd_test, hl, hf]
  | exc => cases hf : attempt Mode.headful <;> simp [cmd_test, hl, hf]

theorem cmd_test_failed_of_headful_not_ok {attempt : Mode → AttemptOutcome}
    (h2 : (cmd_test attempt).ok = some false) : isOk (attempt Mode.headful) = false := by
  cases hl : attempt Mode.headless with
  | ok r => simp [cmd_test, hl] at h2
  | empty =>
    cases hf : attempt Mode.headful with
    | ok r => simp [cmd_test, hl, hf] at h2
    | empty => simp [isOk, hf]
    | exc => simp [isOk, hf]
  | exc =>
    cases hf : attempt Mode.headful with
    | ok r => simp [cmd_test, hl, hf] at h2
    | empty => simp [isOk, hf]
    | exc => simp [isOk, hf]

/-! ## Claims -/

/-- Claim C1, counterexample: in a batch run a headless failure is counted
as `Failed` while the only attempt made for the prompt ran in headless
mode — no visible-mode attempt precedes the terminal failure. -/
theorem claim_C1_counterexample :
    (cmd_batch (fun _ _ => none) [("hp", [['p']])]).failed = 1 ∧
    (cmd_batch (fun _ _ => none) [("hp", [['p']])]).attempts.map Prod.fst =
      [Mode.headless] :=
  ⟨rfl, rfl⟩

/-- Claim C1 (amended): in the single-prompt test flow `cmd_test`, a
non-successful headless attempt is always followed by a headful attempt,
and a `False` result implies the headful attempt also failed — only a
visible-mode failure is terminal there.  In `cmd_batch`, by contrast,
every attempt runs in headless mode only, so a headless failure is
terminal without escalation. -/
theorem claim_C1_amended_thm :
    (∀ attempt : Mode → AttemptOutcome, isOk (attempt Mode.headless) = false →
      Mode.headful ∈ (cmd_test attempt).attempted ∧
      ((cmd_test attempt).ok = some false → isOk (attempt Mode.headful) = false)) ∧
    (∀ (oracle : String → List Char → Option (List Char))
        (hps : List (String × List (List Char))) (a : Mode × String × List Char),
        a ∈ (cmd_batch oracle hps).attempts → a.1 = Mode.headless) := by
  constructor
  · intro attempt h
    refine ⟨?_, fun h2 => cmd_test_failed_of_headful_not_ok h2⟩
    rw [cmd_test_attempted_of_not_ok h]
    decide
  · intro oracle hps a ha
    rw [cmd_batch_eq] at ha
    simp only [batch_attempt_list] at ha
    rw [List.mem_flatMap] at ha
    obtain ⟨h, _, hmem⟩ := ha
    obtain ⟨p, _, rfl⟩ := List.mem_map.mp hmem
    rfl

/-- Claim C1, witness: a headless attempt that yields an empty result is
followed by a headful attempt in `cmd_test`. -/
theorem claim_C1_witness :
    Mode.headful ∈ (cmd_test fun _ => AttemptOutcome.empty).attempted :=
  (claim_C1_amended_thm.1 (fun _ => AttemptOutcome.empty) rfl).1

/-- Claim C2, counterexample: a one-prompt batch whose attempt fails
persists zero records while one prompt was attempted, so the number of
persisted results does not equal the number of prompts attempted. -/
theorem claim_C2_counterexample :
    (cmd_batch (fun _ _ => none) [("hp", [['p']])]).attempts.length = 1 ∧
    (cmd_batch (fun _ _ => none) [("hp", [['p']])]).records.length = 0 :=
  ⟨rfl, rfl⟩

/-- Claim C2 (amended): every prompt of a batch yields exactly one attempt
and increments exactly one of the two counters (success + failed = total
attempted), but a record is persisted only for successful attempts: the
number of persisted records equals the success counter, not the number of
prompts attempted — failures are not written to the sink. -/
theorem claim_C2_amended_thm (oracle : String → List Char → Option (List Char))
    (hps : List (String × List (List Char))) :
    (cmd_batch oracle hps).attempts.length = total_prompts hps ∧
    (cmd_batch oracle hps).success + (cmd_batch oracle hps).failed = total_prompts hps ∧
    (cmd_batch oracle hps).records.length = (cmd_batch oracle hps).success := by
  rw [cmd_batch_eq]
  refine ⟨batch_attempt_list_length hps, ?_, ?_⟩
  · rw [countP_add_countP_not_ws, batch_attempt_list_length]
  · rw [length_filterMap_eq_countP]

/-- Claim C3, counterexample: a page whose only visible element matches
exactly the provider profile's `input_selector` hint still makes
`find_input` fail — the profile-supplied hint is never tried; only the
hard-coded candidate list is. -/
theorem claim_C3_counterexample :
    FrameModel.selVisible ⟨false, fun s => s == "#my-input"⟩ "#my-input" = true ∧
    find_input { frames := [⟨false, fun s => s == "#my-input"⟩], mainIdx := 0 }
      (some "#my-input") = none :=
  ⟨rfl, rfl⟩

/-- Claim C3 (amended): `find_input` ignores the provider profile's
selector hint entirely (its result does not depend on that argument); it
scans the top-level document first, within each document tries the
semantic textbox-role query before the fixed built-in candidate selectors
in their list order, returns the first frame's hit, and fails exactly when
no probe becomes visible across all documents and built-in hints. -/
theorem claim_C3_amended_thm (p : PageModel) (s1 s2 : Option String) :
    find_input p s1 = find_input p s2 ∧
    (find_input p s1 = none ↔ ∀ i ∈ frames_in_read_order p, frameHit (frameAt p i) = none) ∧
    (∀ fr : FrameModel, frameHit fr = none ↔
      fr.roleTextboxVisible = false ∧ ∀ s ∈ candidates, fr.selVisible s = false) ∧
    (∀ h, frameHit (frameAt p p.mainIdx) = some h → find_input p s1 = some (p.mainIdx, h)) ∧
    (∀ fr : FrameModel, fr.roleTextboxVisible = true → frameHit fr = some Hit.role) := by
  refine ⟨rfl, ?_, ?_, ?_, ?_⟩
  · rw [find_input, List.findSome?_eq_none_iff]
    constructor
    · intro hall i hi
      have := hall i hi
      simpa using this
    · intro hall i hi
      rw [hall i hi]
      rfl
  · intro fr
    rw [frameHit]
    constructor
    · intro hnone
      by_cases hrole : fr.roleTextboxVisible = true
      · rw [if_pos hrole] at hnone; cases hnone
      · refine ⟨by simpa using hrole, ?_⟩
        rw [if_neg hrole, List.findSome?_eq_none_iff] at hnone
        intro s hs
        have := hnone s hs
        by_cases hv : fr.selVisible s = true
        · rw [if_pos hv] at this; cases this
        · simpa using hv
    · rintro ⟨h1, h2⟩
      rw [h1]
      simp only [Bool.false_eq_true, if_false]
      rw [List.findSome?_eq_none_iff]
      intro s hs
      rw [h2 s hs]
      simp
  · intro h hh
    simp [find_input, frames_in_read_order, List.findSome?_cons, hh]
  · intro fr hrole
    rw [frameHit, if_pos hrole]

/-- Claim C3, witness: on a one-frame page whose main frame answers the
textbox-role query, `find_input` returns that role hit. -/
theorem claim_C3_witness :
    find_input { frames := [FrameModel.mk true fun _ => false], mainIdx := 0 } none =
      some (0, Hit.role) :=
  (claim_C3_amended_thm { frames := [FrameModel.mk true fun _ => false], mainIdx := 0 }
    none none).2.2.2.1 Hit.role rfl

/-- Claim C4 (confirmed): `clean_text` maps the spec's example to exactly
`"Hi there now"`, and in general its output is all-ASCII, has every
whitespace run collapsed to a single space, and is trimmed at both ends. -/
theorem claim_C4_thm (s : List Char) :
    clean_text "Hi 😀 there\n\n  now".toList = "Hi there now".toList ∧
    (clean_text s).all isAsciiCp = true ∧
    wsCollapsed (clean_text s) = true ∧
    wsTrimmed (clean_text s) = true :=
  ⟨by decide, clean_text_ascii s, clean_text_collapsed s, clean_text_trimmed s⟩

/-- Claim C5, counterexample: for the raw text `"a😀"` the normalized text
is the single character `"a"`, yet the extractor returns it as a truthy
success rather than the empty-response outcome — the emptiness check runs
on the raw stripped text, before normalization. -/
theorem claim_C5_counterexample :
    extract_result ['a', '😀'] = some ['a'] ∧
    truthy (extract_result ['a', '😀']) = true ∧
    (clean_text (stripWS ['a', '😀'])).length = 1 := by
  decide

/-- Claim C5 (amended): the extractor returns the empty-response outcome
(`None`) exactly when the raw text, whitespace-stripped, is empty or a
single character; otherwise it returns the normalized text — which may
itself still be empty or a single character once non-ASCII content is
stripped. -/
theorem claim_C5_amended_thm (raw : List Char) :
    (extract_result raw = none ↔ (stripWS raw).length ≤ 1) ∧
    (1 < (stripWS raw).length → extract_result raw = some (clean_text (stripWS raw))) := by
  unfold extract_result
  by_cases h : stripWS raw ≠ [] ∧ 1 < (stripWS raw).length
  · rw [if_pos h]
    constructor
    · constructor
      · intro hc
        cases hc
      · intro hlen
        exact absurd h.2 (by omega)
    · intro _
      rfl
  · rw [if_neg h]
    have hlen : (stripWS raw).length ≤ 1 := by
      rcases Nat.lt_or_ge 1 (stripWS raw).length with hgt | hle
      · exfalso
        apply h
        refine ⟨?_, hgt⟩
        intro hnil
        rw [hnil] at hgt
        simp at hgt
      · exact hle
    exact ⟨⟨fun _ => hlen, fun _ => rfl⟩, fun hgt => absurd hgt (by omega)⟩

/-- Claim C5, witness: a two-character raw text passes the length check and
is returned normalized. -/
theorem claim_C5_witness :
    extract_result "ab".toList = some (clean_text (stripWS "ab".toList)) :=
  (claim_C5_amended_thm "ab".toList).2 (by decide)

/-- Claim C6 (confirmed): the extraction phase suspends for exactly the
provider's configured wait duration, and when the provider's response
hint matches three elements it reads only the last one. -/
theorem claim_C6_thm (llm : LLMCfg) (pageText : String → List (List Char))
    (w : Nat) (sel : String) (e1 e2 e3 : List Char)
    (hw : llm.wait_time = some w) (hs : llm.response_selector = some sel)
    (hm : pageText sel = [e1, e2, e3]) :
    (extract_phase llm pageText).waited = w ∧
    (extract_phase llm pageText).read = some e3 := by
  constructor
  · simp [extract_phase, waitTime, hw]
  · simp [extract_phase, responseSel, hs, hm]

/-- Claim C6, witness: concrete configuration with wait 5 and a hint
matching three elements. -/
theorem claim_C6_witness :
    (extract_phase ⟨some 5, some ".md"⟩ fun _ => [['a'], ['b'], ['c']]).waited = 5 ∧
    (extract_phase ⟨some 5, some ".md"⟩ fun _ => [['a'], ['b'], ['c']]).read = some ['c'] :=
  claim_C6_thm ⟨some 5, some ".md"⟩ (fun _ => [['a'], ['b'], ['c']]) 5 ".md"
    ['a'] ['b'] ['c'] rfl rfl rfl

/-- Claim C7 (confirmed): a batch submits its attempts in persona-then-
prompt list order — the attempt list is exactly the order-preserving
flattening of the honeypot list — and the persisted records are the
order-preserving filtering of that same attempt list (no reordering or
interleaving). -/
theorem claim_C7_thm (oracle : String → List Char → Option (List Char))
    (hps : List (String × List (List Char))) :
    (cmd_batch oracle hps).attempts =
      hps.flatMap (fun h => h.2.map fun p => (Mode.headless, h.1, p)) ∧
    (cmd_batch oracle hps).records =
      (cmd_batch oracle hps).attempts.filterMap fun a => step_record oracle a.2.1 a.2.2 := by
  rw [cmd_batch_eq]
  exact ⟨rfl, rfl⟩

/-- Claim C8 (confirmed): normalization is idempotent. -/
theorem claim_C8_thm (s : List Char) : clean_text (clean_text s) = clean_text s :=
  clean_text_idem s

/-- Claim C9, counterexample: the persona set with the single persona
named `"honeypots"` parses fine in the named and list encodings but fails
in the mapping encoding — the dispatch mistakes the mapping for the named
form — so the three shapes are not treated equivalently. -/
theorem claim_C9_counterexample :
    parseHoneypots (encMapping [("honeypots", ["p"])]) = none ∧
    parseHoneypots (encList [("honeypots", ["p"])]) =
      some (canonical [("honeypots", ["p"])]) ∧
    parseHoneypots (encNamed [("honeypots", ["p"])]) =
      some (canonical [("honeypots", ["p"])]) :=
  ⟨rfl, rfl, rfl⟩

/-- Claim C9 (amended): provided no persona is literally named
`"honeypots"`, the three accepted encodings of the same personas and
prompt lists — mapping form, explicit name/prompts form, and
list-of-objects form — all yield the same canonical ordered
(persona name, prompt list) sequence. -/
theorem claim_C9_amended_thm (P : PersonaSet) (hno : ∀ h ∈ P, h.1 ≠ "honeypots") :
    parseHoneypots (encNamed P) = some (canonical P) ∧
    parseHoneypots (encList P) = some (canonical P) ∧
    parseHoneypots (encMapping P) = some (canonical P) :=
  ⟨parse_encNamed P, parse_encList P, parse_encMapping P hno⟩

/-- Claim C9, witness: a two-persona set parses identically in all three
encodings. -/
theorem claim_C9_witness :
    parseHoneypots (encNamed [("alice", ["p1"]), ("bob", ["q1", "q2"])]) =
      some (canonical [("alice", ["p1"]), ("bob", ["q1", "q2"])]) ∧
    parseHoneypots (encList [("alice", ["p1"]), ("bob", ["q1", "q2"])]) =
      some (canonical [("alice", ["p1"]), ("bob", ["q1", "q2"])]) ∧
    parseHoneypots (encMapping [("alice", ["p1"]), ("bob", ["q1", "q2"])]) =
      some (canonical [("alice", ["p1"]), ("bob", ["q1", "q2"])]) :=
  claim_C9_amended_thm [("alice", ["p1"]), ("bob", ["q1", "q2"])] (by decide)

/-- Claim C10, counterexample: Python's `isalnum` is Unicode-aware, so
`sanitize_name` keeps the non-ASCII letter `é` unchanged — the output is
not restricted to ASCII alphanumerics, `-`, and `_`. -/
theorem claim_C10_counterexample :
    sanitize_name ['é'] = ['é'] ∧ 0x7F < 'é'.toNat := by
  decide

/-- Claim C10 (amended): `sanitize_name` is length-preserving and every
output character is a (Unicode) alphanumeric, `-`, or `_`; in particular
the output never contains the path separators `/` or `\`. -/
theorem claim_C10_amended_thm (s : List Char) :
    (sanitize_name s).length = s.length ∧
    ((sanitize_name s).all fun c => pyIsAlnum c || c == '-' || c == '_') = true ∧
    ((sanitize_name s).all fun c => !(c == '/') && !(c == '\\')) = true := by
  refine ⟨by simp [sanitize_name], ?_, ?_⟩
  · rw [List.all_eq_true]
    intro x hx
    simp only [sanitize_name] at hx
    obtain ⟨c, _, rfl⟩ := List.mem_map.mp hx
    by_cases h : (pyIsAlnum c || c == '-' || c == '_') = true
    · rwa [if_pos h]
    · rw [if_neg h]
      decide
  · rw [List.all_eq_true]
    intro x hx
    simp only [sanitize_name] at hx
    obtain ⟨c, _, rfl⟩ := List.mem_map.mp hx
    by_cases h : (pyIsAlnum c || c == '-' || c == '_') = true
    · rw [if_pos h]
      have h1 : (c == '/') = false := by
        cases hc : c == '/' with
        | false => rfl
        | true =>
          have hcc : c = '/' := by simpa using hc
          subst hcc
          exact absurd h (by decide)
      have h2 : (c == '\\') = false := by
        cases hc : c == '\\' with
        | false => rfl
        | true =>
          have hcc : c = '\\' := by simpa using hc
          subst hcc
          exact absurd h (by decide)
      simp [h1, h2]
    · rw [if_neg h]
      decide

end LLMRunner
